import Mathlib

/-!
Verification of the SuperCAN USB-CAN bridge firmware
(`examples/device/supercan/src/main.c`) against its natural-language
specification.  The definitions below are shallow embeddings of the
corresponding C functions; machine integers are modelled as `Nat` with an
explicit modulus where wraparound matters.  Definitions whose C source is
not part of the packaged sources (board headers, protocol headers) are
marked `Modelled from the spec:` in their doc comment.
-/

set_option maxRecDepth 4000

/-- Modulus of the `uint32_t` arithmetic used throughout the firmware. -/
def U32 : Nat := 2 ^ 32

/-- 32-bit unsigned subtraction `a - b`, as computed on `uint32_t` values. -/
def sub32 (a b : Nat) : Nat := (a % U32 + (U32 - b % U32)) % U32

/-- `dlc_to_len` from main.c: the fixed DLC-to-payload-length lookup table,
with the index masked to 4 bits (`map[dlc & 0xf]`). -/
def dlc_to_len (dlc : Nat) : Nat :=
  [0, 1, 2, 3, 4, 5, 6, 7, 8, 12, 16, 20, 24, 32, 48, 64].getD (dlc % 16) 0

/-- The CRC-related term of `can_frame_bits` for FD frames (main.c line 1712):
`dlc <= 10 ? (17+4+5) : (21+4+6)` — CRC bits, plus 3-bit stuff count and
1-bit parity, plus the fixed stuff bits of the CRC field. -/
def fd_crc_bits (dlc : Nat) : Nat := if dlc ≤ 10 then 17 + 4 + 5 else 21 + 4 + 6

/-- A CAN frame as seen by the timestamp reconstructor: the format flag bits
read out of the hardware RX/TX-event FIFO element, and the 4-bit DLC. -/
structure CanFrame where
  xtd : Bool
  rtr : Bool
  fdf : Bool
  brs : Bool
  dlc : Nat
deriving DecidableEq, Repr

/-- `can_frame_bits` from main.c: on-wire bit counts of a frame, split into
bits transmitted at the nominal bit rate and bits transmitted at the data
bit rate.  Returns `(nmbr_bits, dtbr_bits)`. -/
def can_frame_bits (f : CanFrame) : Nat × Nat :=
  let payload_bits := dlc_to_len f.dlc * 8
  if f.fdf then
    let crc_bits := fd_crc_bits f.dlc
    if f.brs then
      let dtbr := 1 + 4 + payload_bits + crc_bits
      if f.xtd then
        (1 + 11 + 1 + 1 + 18 + 1 + 1 + 1 + 1 + 1 + 1 + 1 + 7 + 2, dtbr)
      else
        (1 + 11 + 1 + 1 + 1 + 1 + 1 + 1 + 1 + 1 + 7 + 2, dtbr)
    else
      if f.xtd then
        (1 + 11 + 1 + 1 + 18 + 1 + 1 + 1 + 1 + 1 + 4 + payload_bits + crc_bits
          + 1 + 1 + 1 + 7 + 2, 0)
      else
        (1 + 11 + 1 + 1 + 1 + 1 + 1 + 1 + 4 + payload_bits + crc_bits
          + 1 + 1 + 1 + 7 + 2, 0)
  else
    if f.xtd then
      (1 + 11 + 1 + 1 + 18 + 1 + 2 + 4 + (if f.rtr then 0 else payload_bits)
        + 15 + 1 + 1 + 1 + 7 + 2, 0)
    else
      (1 + 11 + 1 + 1 + 1 + 4 + (if f.rtr then 0 else payload_bits)
        + 15 + 1 + 1 + 1 + 7 + 2, 0)

/-- The per-channel precomputed bit-time factors used by `can_frame_time_us`:
`nm_us_per_bit` and `dt_us_per_bit_factor_shift8` of `struct can`. -/
structure ChanParams where
  nm_us_per_bit : Nat
  dt_us_per_bit_factor_shift8 : Nat
deriving DecidableEq, Repr

/-- `can_frame_time_us` from main.c:
`can->nm_us_per_bit * nm + ((can->dt_us_per_bit_factor_shift8 * dt) >> 8)`
in `uint32_t` arithmetic. -/
def can_frame_time_us (p : ChanParams) (nm dt : Nat) : Nat :=
  (p.nm_us_per_bit * nm + p.dt_us_per_bit_factor_shift8 * dt / 2 ^ 8) % U32

/-- On-wire duration in microseconds of one frame, as the reverse loop of
`can_poll` computes it: `can_frame_time_us` applied to `can_frame_bits`. -/
def frame_time (p : ChanParams) (f : CanFrame) : Nat :=
  can_frame_time_us p (can_frame_bits f).1 (can_frame_bits f).2

/-- The reverse walk of `can_poll` (main.c lines 1891-1919) over a batch given
youngest first: the running timestamp `ts` starts at the batch timestamp, the
current frame is stamped `ts & CLOCK_MAX`, then its own on-wire duration is
subtracted (`uint32_t` wraparound) before moving to the next older frame. -/
def ts_reconstruct_rev (p : ChanParams) : Nat → List CanFrame → List Nat
  | _, [] => []
  | ts, f :: rest => ts % U32 :: ts_reconstruct_rev p (sub32 ts (frame_time p f)) rest

/-- Timestamps assigned by `can_poll` to a batch of frames given in arrival
order (oldest first), with batch timestamp `tsc`: the reverse walk runs over
the reversed batch and the forward pass stores the frames oldest first. -/
def can_poll_rx_ts (p : ChanParams) (frames : List CanFrame) (tsc : Nat) : List Nat :=
  (ts_reconstruct_rev p tsc frames.reverse).reverse

/-- Total on-wire duration of a batch of frames. -/
def batch_time (p : ChanParams) (frames : List CanFrame) : Nat :=
  (frames.map (frame_time p)).sum

/-! ### RX ring buffer (forward store loop of `can_poll`, main.c lines 1921-1973) -/

/-- Modelled from the spec: `can_inc_sat_rx_lost` (called at main.c line 1933,
defined in a board header not among the packaged sources) increments the
channel's `uint16_t` `rx_lost` counter, saturating instead of wrapping. -/
def can_inc_sat_rx_lost (lost : Nat) : Nat := if lost < 65535 then lost + 1 else lost

/-- The RX frame ring of one channel: wrapping 8-bit `put`/`get` counters,
the saturating `rx_lost` counter, and the 32 slots (`CAN_RX_FIFO_SIZE = 32`,
per the spec's capacity-32 scenario; frames are identified by a `Nat`). -/
structure RxRing where
  put : Nat
  get : Nat
  lost : Nat
  slots : List Nat
deriving DecidableEq, Repr

/-- One iteration of the forward store loop of `can_poll`: compute
`used = pi - rx_get_index` in `uint8_t` arithmetic; on `used == 32` bump the
saturating lost counter and leave the ring untouched, otherwise write the
frame at `pi & 31` and advance `pi`. -/
def rx_ring_store (r : RxRing) (frame : Nat) : RxRing :=
  let used := (r.put % 256 + 256 - r.get % 256) % 256
  if used = 32 then
    { r with lost := can_inc_sat_rx_lost r.lost }
  else
    { r with slots := r.slots.set (r.put % 32) frame, put := (r.put + 1) % 256 }

/-- Store a whole drained batch, oldest first, as the forward loop does. -/
def rx_ring_store_all (r : RxRing) (frames : List Nat) : RxRing :=
  frames.foldl rx_ring_store r

/-- The ring in its reset state. -/
def rx_ring_empty : RxRing := ⟨0, 0, 0, List.replicate 32 0⟩

/-! ### Command processor (sc_cmd_bulk_out, main.c lines 307-573) -/

/-- The error codes placed in `sc_msg_error` replies.  The numeric values live
in `supercan.h`, which is not among the packaged sources; only their
distinctness matters here. -/
inductive ScError where
  | none
  | short
  | param
  | unsupported
deriving DecidableEq, Repr

/-- Modelled from the spec: the monitor-mode feature flag (bit value from the
protocol header, not among the packaged sources; a distinct single bit). -/
def SC_FEATURE_FLAG_MON_MODE : Nat := 8

/-- Modelled from the spec: the restricted-mode feature flag. -/
def SC_FEATURE_FLAG_RES_MODE : Nat := 16

/-- Modelled from the spec: the external-loopback-mode feature flag. -/
def SC_FEATURE_FLAG_EXT_LOOP_MODE : Nat := 32

/-- Fuelled helper for `popcount`; the fuel only bounds the recursion depth,
`n` halves each step so any fuel of at least `n` is exact. -/
def popcountAux : Nat → Nat → Nat
  | 0, _ => 0
  | fuel + 1, n => if n = 0 then 0 else n % 2 + popcountAux fuel (n / 2)

/-- `__builtin_popcount`: number of set bits. -/
def popcount (n : Nat) : Nat := popcountAux n n

/-- Modelled from the spec: `sizeof(struct sc_msg_features)` (header not among
the packaged sources; only the comparison `msg->len < sizeof(...)` matters). -/
def SC_MSG_FEATURES_SIZE : Nat := 8

/-- Modelled from the spec: `sizeof(struct sc_msg_bittiming)`. -/
def SC_MSG_BITTIMING_SIZE : Nat := 10

/-- Modelled from the spec: `sizeof(struct sc_msg_config)`. -/
def SC_MSG_CONFIG_SIZE : Nat := 6

/-- Modelled from the spec: `sizeof(struct sc_msg_error)`. -/
def SC_MSG_ERROR_SIZE : Nat := 4

/-- The `SC_FEAT_OP_CLEAR` / `SC_FEAT_OP_OR` operations of `sc_msg_features`. -/
inductive FeatOp where
  | opClear
  | opOr
deriving DecidableEq, Repr

/-- The `SC_FEAT_OP_OR` branch of the `SC_MSG_FEATURES` case (main.c lines
516-536).  `feat_perm` and `feat_conf` are the values of
`sc_board_can_feat_perm` and `sc_board_can_feat_conf`; exactly as in the
source, BOTH local masks `perm` and `conf` are taken from `feat_perm`
(main.c lines 516-517: `sc_board_can_feat_perm` is called twice).
Returns the new active feature set and the reply error code. -/
def sc_cmd_features_or (feat_perm feat_conf features arg : Nat) : Nat × ScError :=
  let perm := feat_perm
  let conf := feat_perm
  let _unused := feat_conf
  let mode_bits := arg &&&
    (SC_FEATURE_FLAG_MON_MODE ||| SC_FEATURE_FLAG_RES_MODE ||| SC_FEATURE_FLAG_EXT_LOOP_MODE)
  if popcount mode_bits > 1 then
    (features, ScError.param)
  else if arg &&& ((U32 - 1) ^^^ (perm ||| conf)) ≠ 0 then
    (features, ScError.unsupported)
  else
    (features ||| arg, ScError.none)

/-- The whole `SC_MSG_FEATURES` case: short-length check, then CLEAR or OR. -/
def sc_cmd_features (feat_perm feat_conf features len : Nat) (op : FeatOp) (arg : Nat) :
    Nat × ScError :=
  if len < SC_MSG_FEATURES_SIZE then (features, ScError.short)
  else
    match op with
    | FeatOp.opClear => (feat_perm, ScError.none)
    | FeatOp.opOr => sc_cmd_features_or feat_perm feat_conf features arg

/-- `sc_can_bit_timing`: the four bit-timing fields. -/
structure sc_can_bit_timing where
  brp : Nat
  sjw : Nat
  tseg1 : Nat
  tseg2 : Nat
deriving DecidableEq, Repr

/-- `sc_can_bit_timing_range`: hardware-advertised per-field min/max. -/
structure sc_can_bit_timing_range where
  min : sc_can_bit_timing
  max : sc_can_bit_timing
deriving DecidableEq, Repr

/-- The clamp of `SC_MSG_NM_BITTIMING` / `SC_MSG_DT_BITTIMING` (main.c lines
471-474 and 496-499): each field independently forced into `[min, max]` via
`tu_maxN(range->min.x, tu_minN(msg->x, range->max.x))`. -/
def sc_bittiming_clamp (r : sc_can_bit_timing_range) (m : sc_can_bit_timing) :
    sc_can_bit_timing :=
  ⟨max r.min.brp (min m.brp r.max.brp),
   max r.min.sjw (min m.sjw r.max.sjw),
   max r.min.tseg1 (min m.tseg1 r.max.tseg1),
   max r.min.tseg2 (min m.tseg2 r.max.tseg2)⟩

/-- The channel's negotiated timings: nominal phase and data phase. -/
structure ChannelTiming where
  nm : sc_can_bit_timing
  dt : sc_can_bit_timing
deriving DecidableEq, Repr

/-- The `SC_MSG_NM_BITTIMING` case (main.c lines 458-482): short check, clamp
against the nominal range, apply via `sc_board_can_nm_bit_timing_set`. -/
def sc_cmd_nm_bittiming (r : sc_can_bit_timing_range) (len : Nat)
    (m : sc_can_bit_timing) (t : ChannelTiming) : ChannelTiming × ScError :=
  if len < SC_MSG_BITTIMING_SIZE then (t, ScError.short)
  else ({ t with nm := sc_bittiming_clamp r m }, ScError.none)

/-- The `SC_MSG_DT_BITTIMING` case (main.c lines 483-507): short check, clamp
against the DATA range, but — exactly as the source does at line 503 — apply
the result via `sc_board_can_nm_bit_timing_set`, i.e. to the NOMINAL phase. -/
def sc_cmd_dt_bittiming (r : sc_can_bit_timing_range) (len : Nat)
    (m : sc_can_bit_timing) (t : ChannelTiming) : ChannelTiming × ScError :=
  if len < SC_MSG_BITTIMING_SIZE then (t, ScError.short)
  else ({ t with nm := sc_bittiming_clamp r m }, ScError.none)

/-- The `SC_MSG_BUS` case (main.c lines 541-562): short check, then the enable
flag becomes `arg != 0` (`can_on`/`can_off` is called only on a change, so the
transition is idempotent). -/
def sc_cmd_bus (len arg : Nat) (enabled : Bool) : Bool × ScError :=
  if len < SC_MSG_CONFIG_SIZE then (enabled, ScError.short)
  else (decide (arg ≠ 0), ScError.none)

/-! ### Command reply placement and dispatch -/

/-- The active command TX bank: fill offset, the error replies serialized into
it (in order), and whether the other bank is free (`sc_cmd_bulk_in_ep_ready`). -/
structure CmdBank where
  offset : Nat
  entries : List ScError
  ep_ready : Bool
deriving DecidableEq, Repr

/-- `sc_cmd_place_error_reply` (main.c lines 772-798): write an `sc_msg_error`
reply into the active bank if it fits; otherwise, if the endpoint is ready,
submit the bank (flipping to the fresh, empty bank, the other one now being in
flight) and retry; otherwise the reply is dropped with a log line. -/
def sc_cmd_place_error_reply (cap : Nat) (b : CmdBank) (e : ScError) : CmdBank :=
  if b.offset + SC_MSG_ERROR_SIZE ≤ cap then
    { b with offset := b.offset + SC_MSG_ERROR_SIZE, entries := b.entries ++ [e] }
  else if b.ep_ready then
    { offset := SC_MSG_ERROR_SIZE, entries := [e], ep_ready := false }
  else
    b

/-- The per-channel state touched by the four parametrized commands. -/
structure ChannelCmdState where
  timing : ChannelTiming
  features : Nat
  enabled : Bool
deriving DecidableEq, Repr

/-- A command message, after reading its 2-byte header: the four parametrized
commands modelled above, or a message with an id the switch does not know. -/
inductive CmdMsg where
  | nmBittiming (len : Nat) (m : sc_can_bit_timing)
  | dtBittiming (len : Nat) (m : sc_can_bit_timing)
  | featuresMsg (len : Nat) (op : FeatOp) (arg : Nat)
  | busMsg (len arg : Nat)
  | unknownMsg (id len : Nat)
deriving DecidableEq, Repr

/-- The dispatch switch of `sc_cmd_bulk_out` for the state-modifying commands
(main.c lines 337-567): every case ends in `sc_cmd_place_error_reply`, the
default case replies `SC_ERROR_UNSUPPORTED` without touching channel state. -/
def sc_cmd_handle (nm_range dt_range : sc_can_bit_timing_range)
    (feat_perm feat_conf : Nat) (st : ChannelCmdState) :
    CmdMsg → ChannelCmdState × ScError
  | CmdMsg.nmBittiming len m =>
    let te := sc_cmd_nm_bittiming nm_range len m st.timing
    ({ st with timing := te.1 }, te.2)
  | CmdMsg.dtBittiming len m =>
    let te := sc_cmd_dt_bittiming dt_range len m st.timing
    ({ st with timing := te.1 }, te.2)
  | CmdMsg.featuresMsg len op arg =>
    let fe := sc_cmd_features feat_perm feat_conf st.features len op arg
    ({ st with features := fe.1 }, fe.2)
  | CmdMsg.busMsg len arg =>
    let be := sc_cmd_bus len arg st.enabled
    ({ st with enabled := be.1 }, be.2)
  | CmdMsg.unknownMsg _ _ => (st, ScError.unsupported)

/-! ### Message stream parsing (C6) -/

/-- `SC_MSG_EOF`.  Modelled from the spec: "a header with `id == 0` ...
terminates parsing" — the end-of-frames sentinel id is 0 (protocol header not
among the packaged sources). -/
def SC_MSG_EOF : Nat := 0

/-- Modelled from the spec: the `SC_MSG_HELLO_DEVICE` command id (value from
the protocol header, not among the packaged sources; any nonzero id works). -/
def SC_MSG_HELLO_DEVICE : Nat := 1

/-- The parse loop of `sc_can_bulk_out` (main.c lines 701-715) on the received
buffer (a byte list), starting at byte offset `off`: while a full 2-byte
header `{id, len}` is available, stop if the declared length overruns the
received byte count, stop if `id == 0 || len == 0`, otherwise process the
message and advance by `len`.  Returns the `(offset, id, len)` triples of the
messages processed, in order. -/
def sc_can_bulk_out_parse (buf : List Nat) (off : Nat) : List (Nat × Nat × Nat) :=
  if _h1 : off + 2 ≤ buf.length then
    if _h2 : buf.length < off + buf.getD (off + 1) 0 then []
    else if _h3 : buf.getD off 0 = 0 ∨ buf.getD (off + 1) 0 = 0 then []
    else
      (off, buf.getD off 0, buf.getD (off + 1) 0) ::
        sc_can_bulk_out_parse buf (off + buf.getD (off + 1) 0)
  else []
termination_by buf.length - off
decreasing_by
  rw [not_or] at _h3
  omega

/-- The parse loop of `sc_cmd_bulk_out` (main.c lines 324-335): same bounds
and `len == 0` checks; a processed `SC_MSG_EOF` (id 0) or `SC_MSG_HELLO_DEVICE`
sets `in_ptr = in_end`, i.e. terminates parsing after that message. -/
def sc_cmd_bulk_out_parse (buf : List Nat) (off : Nat) : List (Nat × Nat × Nat) :=
  if _h1 : off + 2 ≤ buf.length then
    if _h2 : buf.length < off + buf.getD (off + 1) 0 then []
    else if _h3 : buf.getD (off + 1) 0 = 0 then []
    else if _h4 : buf.getD off 0 = SC_MSG_EOF ∨ buf.getD off 0 = SC_MSG_HELLO_DEVICE then
      [(off, buf.getD off 0, buf.getD (off + 1) 0)]
    else
      (off, buf.getD off 0, buf.getD (off + 1) 0) ::
        sc_cmd_bulk_out_parse buf (off + buf.getD (off + 1) 0)
  else []
termination_by buf.length - off
decreasing_by omega

/-! ### CAN-data endpoint submission padding (C7) -/

/-- The active CAN-data TX bank: fill offset and byte content. -/
structure CanBank where
  offset : Nat
  bytes : Nat → Nat

/-- The zero-length-packet workaround of `sc_can_bulk_in_submit` (main.c lines
283-291): when the buffer size exceeds the endpoint size and the bank's fill
offset is a multiple of the endpoint size but below the buffer size, 4 zero
bytes are appended (`memset(..., 0, 4)`, `tx_offsets += 4`) before the
transfer is handed to `dcd_edpt_xfer`. -/
def sc_can_bulk_in_submit_pad (msg_buffer_size ep_size : Nat) (b : CanBank) : CanBank :=
  if msg_buffer_size > ep_size then
    if b.offset < msg_buffer_size ∧ b.offset % ep_size = 0 then
      { offset := b.offset + 4,
        bytes := fun i => if b.offset ≤ i ∧ i < b.offset + 4 then 0 else b.bytes i }
    else b
  else b

/-! ### Desynchronization flag (C5) -/

/-- Modelled from the spec: the `SC_CAN_STATUS_FLAG_TXR_DESYNC` status flag
bit (value from the protocol header, not among the packaged sources; a
distinct single bit). -/
def SC_CAN_STATUS_FLAG_TXR_DESYNC : Nat := 2

/-- Status snapshot flags as `can_usb_task` computes them (main.c lines
1363-1366): the interrupt-communication flags, with the TXR-desync bit OR-ed
in while `can->desync` is set. -/
def sc_status_flags (int_comm_flags : Nat) (desync : Bool) : Nat :=
  if desync then int_comm_flags ||| SC_CAN_STATUS_FLAG_TXR_DESYNC else int_comm_flags

/-- Effect of `sc_process_msg_can_tx` (main.c lines 600-664) on the desync
flag.  `tx_available` is the channel's free TX slot count, `fits` says whether
a TXR reply fits in the active bank, `ep_ready` is `sc_can_bulk_in_ep_ready`.
The flag is set exactly when a dropped-TX reply can neither be placed nor the
bank be submitted; it is never cleared here. -/
def sc_process_tx_desync (tx_available : Nat) (fits ep_ready desync : Bool) : Bool :=
  if tx_available ≠ 0 then desync
  else if fits then desync
  else if ep_ready then desync
  else true

/-- The events of one channel that touch or read the desync flag. -/
inductive ChanStep where
  | tx (tx_available : Nat) (fits ep_ready : Bool)
  | status (int_comm_flags : Nat)
  | busOn
deriving DecidableEq, Repr

/-- Transition of the desync flag under one event.  The `busOn` case is
modelled from the spec: a fresh bus-on transition (`can_on`, defined outside
the packaged sources) resets the channel soft state including `desync`. -/
def step_desync (d : Bool) : ChanStep → Bool
  | ChanStep.tx a fits ready => sc_process_tx_desync a fits ready d
  | ChanStep.status _ => d
  | ChanStep.busOn => false

/-- Desync flag after a sequence of events. -/
def run_desync (d : Bool) (steps : List ChanStep) : Bool :=
  steps.foldl step_desync d

/-- The flag fields of the status snapshots emitted along a sequence of
events, each computed from the desync flag current at that point. -/
def emitted_status_flags (d : Bool) : List ChanStep → List Nat
  | [] => []
  | ChanStep.status f :: rest => sc_status_flags f d :: emitted_status_flags d rest
  | ChanStep.tx a fits ready :: rest =>
    emitted_status_flags (sc_process_tx_desync a fits ready d) rest
  | ChanStep.busOn :: rest => emitted_status_flags false rest

/-! ### TX slot accounting (C10) -/

/-- The TX bookkeeping of one channel: free hardware TX slots
(`can->tx_available`), frames submitted to the hardware TX FIFO whose TX event
has not yet been drained, the TX-event ring counters, and the dropped
counter. -/
structure TxSlotState where
  tx_available : Nat
  hw_pending : Nat
  txe_put : Nat
  txe_get : Nat
  tx_dropped : Nat
deriving DecidableEq, Repr

/-- The operations that touch `tx_available`. -/
inductive TxOp where
  | hostTx
  | hwBatch (n : Nat)
  | txrConsume
deriving DecidableEq, Repr

/-- One step of the TX slot accounting, with `size = CAN_TX_FIFO_SIZE`:
`hostTx` is `sc_process_msg_can_tx` (main.c lines 600-641: decrement only if
`can->tx_available` is nonzero, else count the frame as dropped);
`hwBatch n` is the TX-event half of `can_poll` (the hardware reports `n`
completed frames, never more than are pending, and each becomes a TX-event
ring entry); `txrConsume` is the TXR drain of `can_usb_task` (main.c lines
1555-1627: only when the ring is nonempty, advance `tx_get_index` and
increment `tx_available`). -/
def tx_step (s : TxSlotState) : TxOp → TxSlotState
  | TxOp.hostTx =>
    if s.tx_available ≠ 0 then
      { s with tx_available := s.tx_available - 1, hw_pending := s.hw_pending + 1 }
    else
      { s with tx_dropped := s.tx_dropped + 1 }
  | TxOp.hwBatch n =>
    if n ≤ s.hw_pending then
      { s with hw_pending := s.hw_pending - n, txe_put := s.txe_put + n }
    else s
  | TxOp.txrConsume =>
    if s.txe_get ≠ s.txe_put then
      { s with txe_get := s.txe_get + 1, tx_available := s.tx_available + 1 }
    else s

/-- The coupling invariant of the TX slot accounting: every one of the `size`
hardware TX slots is free, occupied by a pending frame, or accounted for by an
undrained TX-event ring entry. -/
def tx_inv (size : Nat) (s : TxSlotState) : Prop :=
  s.txe_get ≤ s.txe_put ∧
    s.tx_available + s.hw_pending + (s.txe_put - s.txe_get) = size

/-- TX bookkeeping at bus-on: all slots free, nothing pending. -/
def tx_init (size : Nat) : TxSlotState := ⟨size, 0, 0, 0, 0⟩

/-- TX bookkeeping after a sequence of operations. -/
def tx_run (size : Nat) (ops : List TxOp) : TxSlotState :=
  ops.foldl tx_step (tx_init size)

/-! ## Theorems -/

/-! ### Arithmetic and list helper lemmas -/

theorem sub32_zero (a : Nat) : sub32 a 0 = a % U32 := by
  show (a % 2 ^ 32 + (2 ^ 32 - 0 % 2 ^ 32)) % 2 ^ 32 = a % 2 ^ 32
  norm_num

theorem sub32_sub32 (a b c : Nat) : sub32 (sub32 a b) c = sub32 a (b + c) := by
  show ((a % 2 ^ 32 + (2 ^ 32 - b % 2 ^ 32)) % 2 ^ 32 % 2 ^ 32
      + (2 ^ 32 - c % 2 ^ 32)) % 2 ^ 32
    = (a % 2 ^ 32 + (2 ^ 32 - (b + c) % 2 ^ 32)) % 2 ^ 32
  norm_num
  omega

theorem sub32_of_le (a b : Nat) (ha : a < U32) (hba : b ≤ a) : sub32 a b = a - b := by
  have h32 : U32 = 4294967296 := by norm_num [U32]
  show (a % U32 + (U32 - b % U32)) % U32 = a - b
  rw [h32] at ha ⊢
  omega

theorem ts_rev_length (p : ChanParams) (ts : Nat) (l : List CanFrame) :
    (ts_reconstruct_rev p ts l).length = l.length := by
  induction l generalizing ts with
  | nil => rfl
  | cons f r ih => simp [ts_reconstruct_rev, ih]

theorem batch_time_nil (p : ChanParams) : batch_time p [] = 0 := rfl

theorem batch_time_cons (p : ChanParams) (f : CanFrame) (l : List CanFrame) :
    batch_time p (f :: l) = frame_time p f + batch_time p l := by
  simp [batch_time]

theorem batch_time_reverse (p : ChanParams) (l : List CanFrame) :
    batch_time p l.reverse = batch_time p l := by
  simp [batch_time, List.map_reverse, List.sum_reverse]

theorem ts_rev_get (p : ChanParams) (l : List CanFrame) (ts j : Nat)
    (hj : j < (ts_reconstruct_rev p ts l).length) :
    (ts_reconstruct_rev p ts l).get ⟨j, hj⟩ = sub32 ts (batch_time p (l.take j)) := by
  induction l generalizing ts j with
  | nil => simp [ts_reconstruct_rev] at hj
  | cons f r ih =>
    cases j with
    | zero => simp [ts_reconstruct_rev, batch_time_nil, sub32_zero]
    | succ j' =>
      have hj' : j' < (ts_reconstruct_rev p (sub32 ts (frame_time p f)) r).length := by
        simpa [ts_reconstruct_rev] using hj
      have := ih (sub32 ts (frame_time p f)) j' hj'
      simp only [ts_reconstruct_rev, List.get_cons_succ] at *
      rw [this, sub32_sub32, List.take_succ_cons, batch_time_cons]

theorem can_poll_rx_ts_length (p : ChanParams) (frames : List CanFrame) (tsc : Nat) :
    (can_poll_rx_ts p frames tsc).length = frames.length := by
  simp [can_poll_rx_ts, ts_rev_length]

theorem batch_time_reverse_take (p : ChanParams) (l : List CanFrame) (m : Nat)
    (hm : m ≤ l.length) :
    batch_time p (l.reverse.take m) = batch_time p (l.drop (l.length - m)) := by
  have hsplit : l.reverse = (l.drop (l.length - m)).reverse ++ (l.take (l.length - m)).reverse := by
    rw [← List.reverse_append, List.take_append_drop]
  have hlen : (l.drop (l.length - m)).reverse.length = m := by
    simp
    omega
  rw [hsplit, List.take_append_eq_append_take, hlen, List.take_of_length_le (le_of_eq hlen),
    Nat.sub_self, List.take_zero, List.append_nil, batch_time_reverse]

theorem list_getElem_idx_congr {l : List Nat} {a b : Nat} (h : a = b) (ha : a < l.length) :
    l.get ⟨a, ha⟩ = l.get ⟨b, h ▸ ha⟩ := by
  subst h
  rfl

theorem can_poll_rx_ts_get (p : ChanParams) (frames : List CanFrame) (tsc i : Nat)
    (hi : i < (can_poll_rx_ts p frames tsc).length) :
    (can_poll_rx_ts p frames tsc).get ⟨i, hi⟩ =
      sub32 tsc (batch_time p (frames.drop (i + 1))) := by
  have hN : i < frames.length := by
    rwa [can_poll_rx_ts_length] at hi
  have hlen : (ts_reconstruct_rev p tsc frames.reverse).length = frames.length := by
    rw [ts_rev_length, List.length_reverse]
  have hj : frames.length - 1 - i < (ts_reconstruct_rev p tsc frames.reverse).length := by
    rw [hlen]; omega
  have hi' : i < (ts_reconstruct_rev p tsc frames.reverse).reverse.length := by
    simp only [List.length_reverse, hlen]
    exact hN
  have hrev : (can_poll_rx_ts p frames tsc).get ⟨i, hi⟩ =
      (ts_reconstruct_rev p tsc frames.reverse).get ⟨frames.length - 1 - i, hj⟩ := by
    show (ts_reconstruct_rev p tsc frames.reverse).reverse.get ⟨i, hi⟩ = _
    rw [List.get_reverse' _ ⟨i, hi'⟩ (by simp only [hlen]; omega)]
    exact list_getElem_idx_congr (by simp only [hlen]) _
  rw [hrev, ts_rev_get, batch_time_reverse_take p frames (frames.length - 1 - i) (by omega)]
  have heq : frames.length - (frames.length - 1 - i) = i + 1 := by omega
  rw [heq]

theorem sum_drop_le_sum (xs : List Nat) (k : Nat) : (xs.drop k).sum ≤ xs.sum := by
  conv_rhs => rw [← List.take_append_drop k xs]
  rw [List.sum_append]
  omega

theorem batch_time_drop_le (p : ChanParams) (l : List CanFrame) (k : Nat) :
    batch_time p (l.drop k) ≤ batch_time p l := by
  have h := sum_drop_le_sum (l.map (frame_time p)) k
  simpa [batch_time, List.map_drop] using h

theorem batch_time_drop_mono (p : ChanParams) (l : List CanFrame) (i j : Nat) (h : i ≤ j) :
    batch_time p (l.drop j) ≤ batch_time p (l.drop i) := by
  have hjj : l.drop j = (l.drop i).drop (j - i) := by
    rw [List.drop_drop]
    congr 1
    omega
  rw [hjj]
  exact batch_time_drop_le p (l.drop i) (j - i)

theorem can_poll_rx_ts_getElem (p : ChanParams) (frames : List CanFrame) (tsc i : Nat)
    (hi : i < (can_poll_rx_ts p frames tsc).length) :
    (can_poll_rx_ts p frames tsc)[i] =
      sub32 tsc (batch_time p (frames.drop (i + 1))) := by
  show (can_poll_rx_ts p frames tsc).get ⟨i, hi⟩ = _
  exact can_poll_rx_ts_get p frames tsc i hi

/-- C1 (counterexample): the reconstructed timestamps are NOT always
non-decreasing in arrival order.  A batch of two identical classic standard
DLC-0 frames (46 on-wire bits each) drained at `tsc = 0`, on a channel with
one microsecond per nominal bit, yields timestamps `[2^32 - 46, 0]`: the
`uint32_t` subtraction wraps, so the older frame receives the larger value. -/
theorem c1_counterexample :
    can_poll_rx_ts ⟨1, 0⟩
        [⟨false, false, false, false, 0⟩, ⟨false, false, false, false, 0⟩] 0 =
      [4294967250, 0] ∧
    ¬ List.Sorted (· ≤ ·)
        (can_poll_rx_ts ⟨1, 0⟩
          [⟨false, false, false, false, 0⟩, ⟨false, false, false, false, 0⟩] 0) := by
  constructor
  · decide
  · intro hs
    have h12 : (4294967250 : Nat) ≤ 0 := by
      have he : can_poll_rx_ts ⟨1, 0⟩
          [⟨false, false, false, false, 0⟩, ⟨false, false, false, false, 0⟩] 0 =
            [4294967250, 0] := by decide
      rw [he] at hs
      exact List.rel_of_sorted_cons hs 0 (by simp)
    omega

/-- C1 (amended): `can_poll`'s timestamp reconstruction assigns the youngest
frame the batch timestamp `tsc`, assigns each earlier frame the timestamp of
the frame after it minus that later frame's on-wire duration in `uint32_t`
arithmetic, and is deterministic — the third conjunct is a closed form
determined solely by the batch and `tsc`.  Timestamps are non-decreasing in
arrival order PROVIDED the 32-bit subtraction does not wrap, i.e. when the
batch's total on-wire duration does not exceed `tsc`; with wraparound the
order is only preserved modulo `2^32` (see the counterexample). -/
theorem c1_timestamp_reconstruction (p : ChanParams) (frames : List CanFrame) (tsc : Nat)
    (htsc : tsc < U32) :
    (can_poll_rx_ts p frames tsc).length = frames.length
    ∧ (frames ≠ [] → (can_poll_rx_ts p frames tsc).getLast? = some tsc)
    ∧ (∀ (i : Nat) (hi : i < (can_poll_rx_ts p frames tsc).length),
        (can_poll_rx_ts p frames tsc).get ⟨i, hi⟩ =
          sub32 tsc (batch_time p (frames.drop (i + 1))))
    ∧ (∀ (i : Nat) (hi1 : i + 1 < (can_poll_rx_ts p frames tsc).length)
        (hf1 : i + 1 < frames.length),
        (can_poll_rx_ts p frames tsc).get ⟨i, Nat.lt_of_succ_lt hi1⟩ =
          sub32 ((can_poll_rx_ts p frames tsc).get ⟨i + 1, hi1⟩)
            (frame_time p (frames.get ⟨i + 1, hf1⟩)))
    ∧ (batch_time p frames ≤ tsc →
        ∀ (i j : Nat) (hi : i < (can_poll_rx_ts p frames tsc).length)
          (hj : j < (can_poll_rx_ts p frames tsc).length), i ≤ j →
          (can_poll_rx_ts p frames tsc).get ⟨i, hi⟩ ≤
            (can_poll_rx_ts p frames tsc).get ⟨j, hj⟩) := by
  refine ⟨can_poll_rx_ts_length p frames tsc, ?_, ?_, ?_, ?_⟩
  · intro hne
    have hlen := can_poll_rx_ts_length p frames tsc
    have hN : 0 < frames.length := List.length_pos.mpr hne
    have hlt : (can_poll_rx_ts p frames tsc).length - 1 <
        (can_poll_rx_ts p frames tsc).length := by omega
    rw [List.getLast?_eq_getElem?, List.getElem?_eq_getElem hlt,
      can_poll_rx_ts_getElem p frames tsc ((can_poll_rx_ts p frames tsc).length - 1) hlt]
    have hdrop : frames.drop ((can_poll_rx_ts p frames tsc).length - 1 + 1) = [] :=
      List.drop_eq_nil_of_le (by omega)
    rw [hdrop, batch_time_nil, sub32_zero, Nat.mod_eq_of_lt htsc]
  · exact fun i hi => can_poll_rx_ts_get p frames tsc i hi
  · intro i hi1 hf1
    rw [can_poll_rx_ts_get p frames tsc i (Nat.lt_of_succ_lt hi1),
      can_poll_rx_ts_get p frames tsc (i + 1) hi1, sub32_sub32]
    have hdrop : frames.drop (i + 1) = frames.get ⟨i + 1, hf1⟩ :: frames.drop (i + 2) := by
      rw [List.get_eq_getElem]
      exact List.drop_eq_getElem_cons hf1
    rw [hdrop, batch_time_cons, Nat.add_comm]
  · intro hwrap i j hi hj hij
    rw [can_poll_rx_ts_get p frames tsc i hi, can_poll_rx_ts_get p frames tsc j hj]
    have h1 : batch_time p (frames.drop (i + 1)) ≤ tsc :=
      le_trans (batch_time_drop_le p frames (i + 1)) hwrap
    have h2 : batch_time p (frames.drop (j + 1)) ≤ tsc :=
      le_trans (batch_time_drop_le p frames (j + 1)) hwrap
    rw [sub32_of_le tsc _ htsc h1, sub32_of_le tsc _ htsc h2]
    have h3 : batch_time p (frames.drop (j + 1)) ≤ batch_time p (frames.drop (i + 1)) :=
      batch_time_drop_mono p frames (i + 1) (j + 1) (by omega)
    omega

/-- Witness for C1 at a concrete batch and `tsc`. -/
theorem c1_timestamp_reconstruction_witness :
    10000 < U32 ∧
      (can_poll_rx_ts ⟨1, 0⟩ [⟨false, false, false, false, 0⟩] 10000).getLast? =
        some 10000 := by
  have h := c1_timestamp_reconstruction ⟨1, 0⟩ [⟨false, false, false, false, 0⟩] 10000
    (by norm_num [U32])
  exact ⟨by norm_num [U32], h.2.1 (by simp)⟩

/-- C8 (counterexample): the CRC-related term of `can_frame_bits` for FD
frames is 26 bits for a short (DLC ≤ 10) frame and 31 bits for a long one —
never 21, 25 or 27 as the claim states. -/
theorem c8_counterexample :
    fd_crc_bits 0 = 26 ∧ fd_crc_bits 11 = 31 ∧
    ¬(fd_crc_bits 0 = 21 ∨ fd_crc_bits 0 = 25) ∧
    ¬(fd_crc_bits 11 = 25 ∨ fd_crc_bits 11 = 27) := by
  decide

/-- C8 (amended): in `can_frame_bits`, the CRC+stuff-count+parity term for FD
frames equals 26 bits (17-bit CRC + 3-bit stuff count + 1 parity + 5 fixed
stuff bits) when DLC ≤ 10 and 31 bits (21 + 3 + 1 + 6) when DLC > 10, the
short/long boundary being determined by the frame's DLC; for a
bit-rate-switched FD frame this term lands in the data-bit-rate count
together with the ESI, DLC and payload bits. -/
theorem c8_fd_crc_bits_amended :
    (∀ dlc : Nat, fd_crc_bits dlc = if dlc ≤ 10 then 26 else 31)
    ∧ (∀ (xtd rtr : Bool) (dlc : Nat),
        (can_frame_bits ⟨xtd, rtr, true, true, dlc⟩).2 =
          1 + 4 + dlc_to_len dlc * 8 + fd_crc_bits dlc) := by
  constructor
  · intro dlc
    unfold fd_crc_bits
    split <;> norm_num
  · intro xtd rtr dlc
    cases xtd <;> simp [can_frame_bits]

/-- C2 (counterexample): with capacity 32 and 40 frames (numbered 1..40 in
arrival order) enqueued into the empty ring without any dequeue, exactly 8 are
dropped and the lost counter reads 8 — but the 32 retained frames are the
OLDEST 32 (frames 1..32), not the most recent 32 (frames 9..40): frame 40,
the most recent, is not retained. -/
theorem c2_counterexample :
    (rx_ring_store_all rx_ring_empty ((List.range 40).map (fun x => x + 1))).lost = 8 ∧
    (rx_ring_store_all rx_ring_empty ((List.range 40).map (fun x => x + 1))).slots =
      (List.range 32).map (fun x => x + 1) ∧
    (rx_ring_store_all rx_ring_empty ((List.range 40).map (fun x => x + 1))).slots ≠
      (List.range 32).map (fun x => x + 9) ∧
    40 ∉ (rx_ring_store_all rx_ring_empty ((List.range 40).map (fun x => x + 1))).slots := by
  refine ⟨by decide, by decide, by decide, by decide⟩

/-- C2 (amended): enqueuing 40 frames into the empty capacity-32 RX ring
without any dequeue drops exactly 8 frames, leaves the saturating lost
counter at 8, and retains the OLDEST 32 frames in arrival order (the producer
drops the newest on overflow).  On every overflow (`used == capacity`) the
producer bumps the saturating lost counter, writes no slot and does not
advance the put index, never overwriting an unread slot; when the ring is not
full it writes exactly the slot at `put mod 32` and advances `put` by one. -/
theorem c2_ring_buffer_amended :
    ((rx_ring_store_all rx_ring_empty ((List.range 40).map (fun x => x + 1))).lost = 8 ∧
      (rx_ring_store_all rx_ring_empty ((List.range 40).map (fun x => x + 1))).slots =
        (List.range 32).map (fun x => x + 1))
    ∧ (∀ (r : RxRing) (f : Nat), (r.put % 256 + 256 - r.get % 256) % 256 = 32 →
        (rx_ring_store r f).lost = can_inc_sat_rx_lost r.lost ∧
        (rx_ring_store r f).put = r.put ∧
        (rx_ring_store r f).get = r.get ∧
        (rx_ring_store r f).slots = r.slots)
    ∧ (∀ (r : RxRing) (f : Nat), (r.put % 256 + 256 - r.get % 256) % 256 ≠ 32 →
        (rx_ring_store r f).lost = r.lost ∧
        (rx_ring_store r f).put = (r.put + 1) % 256 ∧
        (rx_ring_store r f).slots = r.slots.set (r.put % 32) f ∧
        (∀ i : Nat, i ≠ r.put % 32 →
          (rx_ring_store r f).slots.getD i 0 = r.slots.getD i 0)) := by
  refine ⟨⟨by decide, by decide⟩, ?_, ?_⟩
  · intro r f h
    simp [rx_ring_store, h]
  · intro r f h
    refine ⟨?_, ?_, ?_, ?_⟩ <;> simp [rx_ring_store, h]
    intro i hne
    rcases Nat.lt_or_ge i r.slots.length with hlt | hge
    · simp [List.getD, List.getElem?_set_ne (Ne.symm hne)]
    · have hnone : (r.slots.set (r.put % 32) f)[i]? = none :=
        List.getElem?_eq_none (by simpa using hge)
      have hnone2 : r.slots[i]? = none := List.getElem?_eq_none hge
      simp [List.getD, hnone, hnone2]

/-- Witness for C2's universally quantified overflow conjunct at a concrete
full ring. -/
theorem c2_ring_buffer_amended_witness :
    ((32 : Nat) % 256 + 256 - 0 % 256) % 256 = 32 ∧
    (rx_ring_store ⟨32, 0, 0, List.replicate 32 0⟩ 99).lost = 1 ∧
    (rx_ring_store ⟨32, 0, 0, List.replicate 32 0⟩ 99).put = 32 := by
  have h := (c2_ring_buffer_amended.2.1 ⟨32, 0, 0, List.replicate 32 0⟩ 99 (by decide))
  refine ⟨by decide, ?_, ?_⟩
  · rw [h.1]
    decide
  · rw [h.2.1]

/-- C3 (code defect): `sc_cmd_bulk_out`'s `SC_MSG_FEATURES` handler reads BOTH
the permanent and the "configurable" mask from `sc_board_can_feat_perm`
(main.c lines 516-517), so an OR request whose flags lie inside
permanent ∪ configurable but outside permanent is rejected with
`SC_ERROR_UNSUPPORTED` and the active feature set is left unchanged — here
with permanent = 0, configurable = 1, request arg = 1 (no mode bits set). -/
theorem c3_features_conf_bug :
    sc_cmd_features_or 0 1 0 1 = (0, ScError.unsupported) ∧
    1 &&& ((0 : Nat) ||| 1) = 1 ∧
    sc_cmd_features 0 1 0 SC_MSG_FEATURES_SIZE FeatOp.opOr 1 = (0, ScError.unsupported) := by
  refine ⟨by decide, by decide, by decide⟩

/-- C4 (code defect): the `SC_MSG_DT_BITTIMING` handler clamps the request
against the data-phase range (brp 2000 is clamped to the advertised maximum
1024) and is accepted without error, but — main.c line 503 calls
`sc_board_can_nm_bit_timing_set` — the clamped result overwrites the NOMINAL
timing while the data timing is left unchanged, contrary to the claim that a
data message configures the data phase. -/
theorem c4_dt_bittiming_applies_to_nominal :
    sc_cmd_dt_bittiming ⟨⟨1, 1, 1, 1⟩, ⟨1024, 4, 16, 8⟩⟩ SC_MSG_BITTIMING_SIZE
        ⟨2000, 2, 5, 3⟩ ⟨⟨7, 1, 13, 2⟩, ⟨9, 1, 3, 2⟩⟩ =
      (⟨⟨1024, 2, 5, 3⟩, ⟨9, 1, 3, 2⟩⟩, ScError.none) ∧
    (sc_cmd_dt_bittiming ⟨⟨1, 1, 1, 1⟩, ⟨1024, 4, 16, 8⟩⟩ SC_MSG_BITTIMING_SIZE
        ⟨2000, 2, 5, 3⟩ ⟨⟨7, 1, 13, 2⟩, ⟨9, 1, 3, 2⟩⟩).1.dt ≠
      sc_bittiming_clamp ⟨⟨1, 1, 1, 1⟩, ⟨1024, 4, 16, 8⟩⟩ ⟨2000, 2, 5, 3⟩ := by
  refine ⟨by decide, by decide⟩

/-- C9: every too-short parametrized command is answered with `SC_ERROR_SHORT`
and leaves the channel state untouched; every unknown command id is answered
with `SC_ERROR_UNSUPPORTED` and leaves the channel state untouched; and
`sc_cmd_place_error_reply` actually serializes the reply whenever the active
bank has room or the endpoint is ready for a submit-and-retry. -/
theorem c9_short_and_unknown_errors :
    (∀ (nr dr : sc_can_bit_timing_range) (perm conf : Nat) (st : ChannelCmdState)
      (len : Nat) (m : sc_can_bit_timing), len < SC_MSG_BITTIMING_SIZE →
        sc_cmd_handle nr dr perm conf st (CmdMsg.nmBittiming len m) = (st, ScError.short) ∧
        sc_cmd_handle nr dr perm conf st (CmdMsg.dtBittiming len m) = (st, ScError.short))
    ∧ (∀ (nr dr : sc_can_bit_timing_range) (perm conf : Nat) (st : ChannelCmdState)
      (len : Nat) (op : FeatOp) (arg : Nat), len < SC_MSG_FEATURES_SIZE →
        sc_cmd_handle nr dr perm conf st (CmdMsg.featuresMsg len op arg) =
          (st, ScError.short))
    ∧ (∀ (nr dr : sc_can_bit_timing_range) (perm conf : Nat) (st : ChannelCmdState)
      (len arg : Nat), len < SC_MSG_CONFIG_SIZE →
        sc_cmd_handle nr dr perm conf st (CmdMsg.busMsg len arg) = (st, ScError.short))
    ∧ (∀ (nr dr : sc_can_bit_timing_range) (perm conf : Nat) (st : ChannelCmdState)
      (id len : Nat),
        sc_cmd_handle nr dr perm conf st (CmdMsg.unknownMsg id len) =
          (st, ScError.unsupported))
    ∧ (∀ (cap : Nat) (b : CmdBank) (e : ScError),
        b.offset + SC_MSG_ERROR_SIZE ≤ cap ∨ b.ep_ready = true →
        (sc_cmd_place_error_reply cap b e).entries.getLast? = some e) := by
  refine ⟨?_, ?_, ?_, ?_, ?_⟩
  · intro nr dr perm conf st len m h
    constructor <;> simp [sc_cmd_handle, sc_cmd_nm_bittiming, sc_cmd_dt_bittiming, h]
  · intro nr dr perm conf st len op arg h
    simp [sc_cmd_handle, sc_cmd_features, h]
  · intro nr dr perm conf st len arg h
    simp [sc_cmd_handle, sc_cmd_bus, h]
  · intro nr dr perm conf st id len
    simp [sc_cmd_handle]
  · intro cap b e h
    unfold sc_cmd_place_error_reply
    rcases Nat.decLe (b.offset + SC_MSG_ERROR_SIZE) cap with hle | hle
    · rw [if_neg hle]
      have hep : b.ep_ready = true := by
        rcases h with h | h
        · exact absurd h hle
        · exact h
      rw [if_pos hep]
      rfl
    · rw [if_pos hle]
      simp

/-- Witness for C9 at a concrete too-short bus command. -/
theorem c9_short_and_unknown_errors_witness :
    (2 : Nat) < SC_MSG_CONFIG_SIZE ∧
    sc_cmd_handle ⟨⟨1, 1, 1, 1⟩, ⟨1024, 4, 16, 8⟩⟩ ⟨⟨1, 1, 1, 1⟩, ⟨1024, 4, 16, 8⟩⟩ 0 0
        ⟨⟨⟨1, 1, 1, 1⟩, ⟨1, 1, 1, 1⟩⟩, 0, false⟩ (CmdMsg.busMsg 2 1) =
      (⟨⟨⟨1, 1, 1, 1⟩, ⟨1, 1, 1, 1⟩⟩, 0, false⟩, ScError.short) := by
  exact ⟨by decide, c9_short_and_unknown_errors.2.2.1 _ _ _ _ _ 2 1 (by decide)⟩

/-- C7: on submission of a CAN-data bank with a positive fill offset, 4 zero
padding bytes are appended (and the offset grows by 4) exactly when the
offset is a multiple of the endpoint size and strictly below the buffer
size; all previously filled bytes are preserved; in every other case the
bank is handed over unchanged. -/
theorem c7_zlp_padding (msg_buffer_size ep_size : Nat) (b : CanBank)
    (hoff : 0 < b.offset) (hep : 0 < ep_size) :
    ((b.offset % ep_size = 0 ∧ b.offset < msg_buffer_size) →
      (sc_can_bulk_in_submit_pad msg_buffer_size ep_size b).offset = b.offset + 4 ∧
      (∀ i : Nat, b.offset ≤ i → i < b.offset + 4 →
        (sc_can_bulk_in_submit_pad msg_buffer_size ep_size b).bytes i = 0) ∧
      (∀ i : Nat, i < b.offset →
        (sc_can_bulk_in_submit_pad msg_buffer_size ep_size b).bytes i = b.bytes i))
    ∧ (¬(b.offset % ep_size = 0 ∧ b.offset < msg_buffer_size) →
      sc_can_bulk_in_submit_pad msg_buffer_size ep_size b = b) := by
  constructor
  · rintro ⟨hmod, hlt⟩
    have hle : ep_size ≤ b.offset := Nat.le_of_dvd hoff (Nat.dvd_of_mod_eq_zero hmod)
    have hbuf : msg_buffer_size > ep_size := by omega
    have hcond : b.offset < msg_buffer_size ∧ b.offset % ep_size = 0 := ⟨hlt, hmod⟩
    refine ⟨?_, ?_, ?_⟩
    · simp [sc_can_bulk_in_submit_pad, hbuf, hcond]
    · intro i h1 h2
      simp [sc_can_bulk_in_submit_pad, hbuf, hcond, h1, h2]
    · intro i h1
      have hno : ¬(b.offset ≤ i ∧ i < b.offset + 4) := by omega
      simp [sc_can_bulk_in_submit_pad, hbuf, hcond, hno]
  · intro hnc
    unfold sc_can_bulk_in_submit_pad
    rcases Nat.decLt ep_size msg_buffer_size with hbuf | hbuf
    · rw [if_neg hbuf]
    · rw [if_pos hbuf]
      have hno : ¬(b.offset < msg_buffer_size ∧ b.offset % ep_size = 0) := by
        intro hc
        exact hnc ⟨hc.2, hc.1⟩
      rw [if_neg hno]

/-- Witness for C7 at a concrete bank: offset 64, endpoint size 64, buffer
size 512. -/
theorem c7_zlp_padding_witness :
    0 < (64 : Nat) ∧
    ((64 : Nat) % 64 = 0 ∧ (64 : Nat) < 512) ∧
    (sc_can_bulk_in_submit_pad 512 64 ⟨64, fun i => i + 1⟩).offset = 68 ∧
    (sc_can_bulk_in_submit_pad 512 64 ⟨64, fun i => i + 1⟩).bytes 65 = 0 ∧
    (sc_can_bulk_in_submit_pad 512 64 ⟨64, fun i => i + 1⟩).bytes 3 = 4 := by
  have h := c7_zlp_padding 512 64 ⟨64, fun i => i + 1⟩ (by decide) (by decide)
  have h1 := h.1 ⟨by decide, by decide⟩
  refine ⟨by decide, ⟨by decide, by decide⟩, h1.1, h1.2.1 65 (by decide) (by decide), ?_⟩
  rw [h1.2.2 3 (by decide)]

theorem sc_can_parse_mem_bounds (buf : List Nat) (off : Nat) :
    ∀ m ∈ sc_can_bulk_out_parse buf off,
      off ≤ m.1 ∧ m.1 + 2 ≤ buf.length ∧ m.1 + m.2.2 ≤ buf.length := by
  induction off using sc_can_bulk_out_parse.induct buf with
  | case1 x h1 h2 =>
    rw [sc_can_bulk_out_parse, dif_pos h1, dif_pos h2]
    simp
  | case2 x h1 h2 h3 =>
    rw [sc_can_bulk_out_parse, dif_pos h1, dif_neg h2, dif_pos h3]
    simp
  | case3 x h1 h2 h3 ih =>
    rw [sc_can_bulk_out_parse, dif_pos h1, dif_neg h2, dif_neg h3]
    intro m hm
    rcases List.mem_cons.mp hm with hm | hm
    · subst hm
      refine ⟨le_refl _, h1, ?_⟩
      show x + buf.getD (x + 1) 0 ≤ buf.length
      omega
    · have hb := ih m hm
      rw [not_or] at h3
      have hlen : buf.getD (x + 1) 0 ≠ 0 := h3.2
      refine ⟨by omega, hb.2.1, hb.2.2⟩
  | case4 x h1 =>
    rw [sc_can_bulk_out_parse, dif_neg h1]
    simp

theorem sc_cmd_parse_mem_bounds (buf : List Nat) (off : Nat) :
    ∀ m ∈ sc_cmd_bulk_out_parse buf off,
      off ≤ m.1 ∧ m.1 + 2 ≤ buf.length ∧ m.1 + m.2.2 ≤ buf.length := by
  induction off using sc_cmd_bulk_out_parse.induct buf with
  | case1 x h1 h2 =>
    rw [sc_cmd_bulk_out_parse, dif_pos h1, dif_pos h2]
    simp
  | case2 x h1 h2 h3 =>
    rw [sc_cmd_bulk_out_parse, dif_pos h1, dif_neg h2, dif_pos h3]
    simp
  | case3 x h1 h2 h3 h4 =>
    rw [sc_cmd_bulk_out_parse, dif_pos h1, dif_neg h2, dif_neg h3, dif_pos h4]
    intro m hm
    rcases List.mem_singleton.mp hm with hm
    subst hm
    refine ⟨le_refl _, h1, ?_⟩
    show x + buf.getD (x + 1) 0 ≤ buf.length
    omega
  | case4 x h1 h2 h3 h4 ih =>
    rw [sc_cmd_bulk_out_parse, dif_pos h1, dif_neg h2, dif_neg h3, dif_neg h4]
    intro m hm
    rcases List.mem_cons.mp hm with hm | hm
    · subst hm
      refine ⟨le_refl _, h1, ?_⟩
      show x + buf.getD (x + 1) 0 ≤ buf.length
      omega
    · have hb := ih m hm
      have hlen : buf.getD (x + 1) 0 ≠ 0 := h3
      refine ⟨by omega, hb.2.1, hb.2.2⟩
  | case5 x h1 =>
    rw [sc_cmd_bulk_out_parse, dif_neg h1]
    simp

/-- C6: message-stream parsing on both channels is a total function that
never reads past the received byte count — every processed message's header
and declared body lie inside the buffer —, a truncated header (fewer than 2
remaining bytes) stops parsing, a zero id or zero length terminates parsing
of the remainder, a declared length exceeding the remaining received bytes
aborts with no message processed from that point, and parsing is sequential:
the first processed message starts at the current offset and the rest is the
parse of the buffer after it, so messages already processed are unaffected
by later malformed data. -/
theorem c6_parse_safety :
    (∀ (buf : List Nat) (off : Nat), buf.length < off + 2 →
      sc_can_bulk_out_parse buf off = [] ∧ sc_cmd_bulk_out_parse buf off = [])
    ∧ (∀ (buf : List Nat) (off : Nat), buf.length < off + buf.getD (off + 1) 0 →
      sc_can_bulk_out_parse buf off = [] ∧ sc_cmd_bulk_out_parse buf off = [])
    ∧ (∀ (buf : List Nat) (off : Nat),
        buf.getD off 0 = 0 ∨ buf.getD (off + 1) 0 = 0 →
        sc_can_bulk_out_parse buf off = [])
    ∧ (∀ (buf : List Nat) (off : Nat), buf.getD (off + 1) 0 = 0 →
        sc_cmd_bulk_out_parse buf off = [])
    ∧ (∀ (buf : List Nat) (off : Nat), buf.getD off 0 = 0 →
        (sc_cmd_bulk_out_parse buf off).length ≤ 1)
    ∧ (∀ (buf : List Nat) (off : Nat),
        ∀ m ∈ sc_can_bulk_out_parse buf off,
          off ≤ m.1 ∧ m.1 + 2 ≤ buf.length ∧ m.1 + m.2.2 ≤ buf.length)
    ∧ (∀ (buf : List Nat) (off : Nat),
        ∀ m ∈ sc_cmd_bulk_out_parse buf off,
          off ≤ m.1 ∧ m.1 + 2 ≤ buf.length ∧ m.1 + m.2.2 ≤ buf.length)
    ∧ (∀ (buf : List Nat) (off : Nat) (m : Nat × Nat × Nat)
        (rest : List (Nat × Nat × Nat)),
        sc_can_bulk_out_parse buf off = m :: rest →
        m.1 = off ∧ rest = sc_can_bulk_out_parse buf (off + m.2.2)) := by
  refine ⟨?_, ?_, ?_, ?_, ?_, sc_can_parse_mem_bounds, sc_cmd_parse_mem_bounds, ?_⟩
  · intro buf off h
    constructor
    · rw [sc_can_bulk_out_parse, dif_neg (by omega)]
    · rw [sc_cmd_bulk_out_parse, dif_neg (by omega)]
  · intro buf off h
    constructor
    · rw [sc_can_bulk_out_parse]
      rcases Nat.decLe (off + 2) buf.length with h1 | h1
      · rw [dif_neg h1]
      · rw [dif_pos h1, dif_pos h]
    · rw [sc_cmd_bulk_out_parse]
      rcases Nat.decLe (off + 2) buf.length with h1 | h1
      · rw [dif_neg h1]
      · rw [dif_pos h1, dif_pos h]
  · intro buf off h
    rw [sc_can_bulk_out_parse]
    rcases Nat.decLe (off + 2) buf.length with h1 | h1
    · rw [dif_neg h1]
    · rw [dif_pos h1]
      rcases Nat.decLt buf.length (off + buf.getD (off + 1) 0) with h2 | h2
      · rw [dif_neg h2, dif_pos h]
      · rw [dif_pos h2]
  · intro buf off h
    rw [sc_cmd_bulk_out_parse]
    rcases Nat.decLe (off + 2) buf.length with h1 | h1
    · rw [dif_neg h1]
    · rw [dif_pos h1]
      rcases Nat.decLt buf.length (off + buf.getD (off + 1) 0) with h2 | h2
      · rw [dif_neg h2, dif_pos h]
      · rw [dif_pos h2]
  · intro buf off h
    rw [sc_cmd_bulk_out_parse]
    split_ifs with h1 h2 h3 h4 <;> simp
    exact absurd (Or.inl (by simpa [SC_MSG_EOF] using h)) h4
  · intro buf off m rest h
    rw [sc_can_bulk_out_parse] at h
    rcases Nat.decLe (off + 2) buf.length with h1 | h1
    · rw [dif_neg h1] at h
      simp at h
    · rw [dif_pos h1] at h
      rcases Nat.decLt buf.length (off + buf.getD (off + 1) 0) with h2 | h2
      · rw [dif_neg h2] at h
        by_cases h3 : buf.getD off 0 = 0 ∨ buf.getD (off + 1) 0 = 0
        · rw [dif_pos h3] at h
          simp at h
        · rw [dif_neg h3] at h
          rw [List.cons.injEq] at h
          rcases h with ⟨hm, hr⟩
          subst hm
          exact ⟨rfl, hr.symm⟩
      · rw [dif_pos h2] at h
        simp at h

/-- Witness for C6's zero-id termination conjunct at a concrete buffer:
at offset 8 the header id byte is 0, so nothing further is parsed. -/
theorem c6_parse_safety_witness :
    ([5, 4, 0, 0, 6, 4, 1, 2, 0, 0] : List Nat).getD 8 0 = 0 ∧
    sc_can_bulk_out_parse [5, 4, 0, 0, 6, 4, 1, 2, 0, 0] 8 = [] := by
  exact ⟨by decide, c6_parse_safety.2.2.1 [5, 4, 0, 0, 6, 4, 1, 2, 0, 0] 8 (Or.inl (by decide))⟩

theorem step_desync_mono (s : ChanStep) (h : s ≠ ChanStep.busOn) :
    step_desync true s = true := by
  cases s with
  | tx a fits ready =>
    simp only [step_desync, sc_process_tx_desync]
    split_ifs <;> rfl
  | status f => rfl
  | busOn => exact absurd rfl h

theorem sc_process_tx_desync_true (a : Nat) (fits ready : Bool) :
    sc_process_tx_desync a fits ready true = true := by
  simp only [sc_process_tx_desync]
  split_ifs <;> rfl

theorem status_flags_desync_bit (f : Nat) :
    sc_status_flags f true &&& SC_CAN_STATUS_FLAG_TXR_DESYNC ≠ 0 := by
  intro h0
  have hbit : ((f ||| 2) &&& 2).testBit 1 = true := by
    simp [Nat.testBit_and, Nat.testBit_or]
    exact ⟨Or.inr (by decide), by decide⟩
  have h0' : (f ||| 2) &&& 2 = 0 := by
    simpa [sc_status_flags, SC_CAN_STATUS_FLAG_TXR_DESYNC] using h0
  rw [h0'] at hbit
  simp at hbit

/-- C5: once the desync flag is set — and `sc_process_msg_can_tx` sets it
exactly when a TXR for a dropped TX frame neither fits in the active bank nor
can the bank be submitted — it stays set across every event other than a
bus-on transition, every status snapshot emitted in the meantime carries the
TXR-desync flag bit, and only the (spec-modelled) bus-on reset clears it. -/
theorem c5_desync_persistent (d : Bool) (steps : List ChanStep)
    (hno : ChanStep.busOn ∉ steps) (hd : d = true) :
    run_desync d steps = true
    ∧ (∀ fl ∈ emitted_status_flags d steps,
        fl &&& SC_CAN_STATUS_FLAG_TXR_DESYNC ≠ 0)
    ∧ step_desync false (ChanStep.tx 0 false false) = true
    ∧ step_desync true ChanStep.busOn = false := by
  subst hd
  refine ⟨?_, ?_, rfl, rfl⟩
  · induction steps with
    | nil => rfl
    | cons s rest ih =>
      have hs : s ≠ ChanStep.busOn := fun hc => hno (hc ▸ List.mem_cons_self s rest)
      have hrest : ChanStep.busOn ∉ rest := fun hc => hno (List.mem_cons_of_mem s hc)
      show run_desync (step_desync true s) rest = true
      rw [step_desync_mono s hs]
      exact ih hrest
  · induction steps with
    | nil => intro fl hfl; simp [emitted_status_flags] at hfl
    | cons s rest ih =>
      have hs : s ≠ ChanStep.busOn := fun hc => hno (hc ▸ List.mem_cons_self s rest)
      have hrest : ChanStep.busOn ∉ rest := fun hc => hno (List.mem_cons_of_mem s hc)
      intro fl hfl
      cases s with
      | status f =>
        rw [emitted_status_flags] at hfl
        rcases List.mem_cons.mp hfl with hfl | hfl
        · subst hfl
          exact status_flags_desync_bit f
        · exact ih hrest fl hfl
      | tx a fits ready =>
        rw [emitted_status_flags, sc_process_tx_desync_true] at hfl
        exact ih hrest fl hfl
      | busOn => exact absurd rfl hs

/-- Witness for C5 at a concrete event sequence without a bus-on. -/
theorem c5_desync_persistent_witness :
    ChanStep.busOn ∉ [ChanStep.status 0, ChanStep.tx 3 true true, ChanStep.status 5] ∧
    run_desync true [ChanStep.status 0, ChanStep.tx 3 true true, ChanStep.status 5] =
      true := by
  have h := c5_desync_persistent true
    [ChanStep.status 0, ChanStep.tx 3 true true, ChanStep.status 5] (by decide) rfl
  exact ⟨by decide, h.1⟩

theorem tx_step_inv (size : Nat) (s : TxSlotState) (op : TxOp) (h : tx_inv size s) :
    tx_inv size (tx_step s op) := by
  rcases h with ⟨hge, hsum⟩
  cases op with
  | hostTx =>
    by_cases ha : s.tx_available ≠ 0 <;> simp [tx_step, ha, tx_inv] <;> omega
  | hwBatch n =>
    by_cases hn : n ≤ s.hw_pending <;> simp [tx_step, hn, tx_inv] <;> omega
  | txrConsume =>
    by_cases hg : s.txe_get ≠ s.txe_put <;> simp [tx_step, hg, tx_inv] <;> omega

theorem tx_foldl_inv (size : Nat) (ops : List TxOp) :
    ∀ s : TxSlotState, tx_inv size s → tx_inv size (ops.foldl tx_step s) := by
  induction ops with
  | nil => intro s h; exact h
  | cons op rest ih =>
    intro s h
    exact ih (tx_step s op) (tx_step_inv size s op h)

/-- C10: the TX slot accounting keeps `tx_available` within
`[0, CAN_TX_FIFO_SIZE]`: the invariant coupling free slots, frames pending in
hardware and undrained TX-event ring entries holds initially and is preserved
by every operation and every operation sequence; a host TX frame decrements
`tx_available` only when it is nonzero and a frame arriving at zero is
counted as dropped instead; and a TX-event ring entry is consumed only when
the ring is nonempty, in which state `tx_available` is strictly below the
FIFO size and is incremented by exactly one. -/
theorem c10_tx_available_invariant (size : Nat) :
    tx_inv size (tx_init size)
    ∧ (∀ (s : TxSlotState) (op : TxOp), tx_inv size s → tx_inv size (tx_step s op))
    ∧ (∀ s : TxSlotState, tx_inv size s → s.tx_available ≤ size)
    ∧ (∀ s : TxSlotState, s.tx_available = 0 →
        (tx_step s TxOp.hostTx).tx_available = 0 ∧
        (tx_step s TxOp.hostTx).tx_dropped = s.tx_dropped + 1)
    ∧ (∀ s : TxSlotState, s.tx_available ≠ 0 →
        (tx_step s TxOp.hostTx).tx_available = s.tx_available - 1)
    ∧ (∀ s : TxSlotState, tx_inv size s → s.txe_get ≠ s.txe_put →
        s.tx_available < size ∧
        (tx_step s TxOp.txrConsume).tx_available = s.tx_available + 1 ∧
        (tx_step s TxOp.txrConsume).txe_get = s.txe_get + 1)
    ∧ (∀ ops : List TxOp,
        tx_inv size (tx_run size ops) ∧ (tx_run size ops).tx_available ≤ size) := by
  have hinit : tx_inv size (tx_init size) := by
    simp [tx_inv, tx_init]
  have hle : ∀ s : TxSlotState, tx_inv size s → s.tx_available ≤ size := by
    intro s ⟨hge, hsum⟩
    omega
  refine ⟨hinit, tx_step_inv size, hle, ?_, ?_, ?_, ?_⟩
  · intro s h
    simp [tx_step, h]
  · intro s h
    simp [tx_step, h]
  · intro s ⟨hge, hsum⟩ hne
    refine ⟨by omega, ?_, ?_⟩ <;> simp [tx_step, hne]
  · intro ops
    have h := tx_foldl_inv size ops (tx_init size) hinit
    exact ⟨h, hle _ h⟩

/-- Witness for C10 at a concrete state and operation sequence. -/
theorem c10_tx_available_invariant_witness :
    (⟨0, 2, 3, 1, 5⟩ : TxSlotState).tx_available = 0 ∧
    (tx_step ⟨0, 2, 3, 1, 5⟩ TxOp.hostTx).tx_dropped = 6 ∧
    (tx_run 32 [TxOp.hostTx, TxOp.hwBatch 1, TxOp.txrConsume]).tx_available ≤ 32 := by
  have h := c10_tx_available_invariant 32
  refine ⟨rfl, ?_, (h.2.2.2.2.2.2 [TxOp.hostTx, TxOp.hwBatch 1, TxOp.txrConsume]).2⟩
  rw [(h.2.2.2.1 ⟨0, 2, 3, 1, 5⟩ rfl).2]
